import Mathlib

/-!
Verification of the Post Collection Pipeline of a static personal website
(an Astro blog). The build pipeline itself (schema validation, draft
filtering, date sorting) lives in the framework and is not shipped in the
repository; it is modelled here from the specification. The concrete
content file, the front-matter template of the README and the site
configuration of `astro.config.mjs` are embedded from the repository's
files.
-/

namespace PersonalSite

/-- Calendar date used for `pubDate` front-matter values. -/
structure Date where
  year : Nat
  month : Nat
  day : Nat
deriving DecidableEq, Repr

/-- Gregorian leap-year test. -/
def Date.isLeapYear (y : Nat) : Bool :=
  (y % 4 == 0 && y % 100 != 0) || y % 400 == 0

/-- Number of days of month `m` in year `y` (0 when `m` is out of range). -/
def Date.daysInMonth (y m : Nat) : Nat :=
  if m == 2 then (if Date.isLeapYear y then 29 else 28)
  else if m == 4 || m == 6 || m == 9 || m == 11 then 30
  else if 1 ≤ m && m ≤ 12 then 31
  else 0

/-- A date is valid when its month and day are in range for its year. -/
def Date.isValid (d : Date) : Bool :=
  1 ≤ d.month && d.month ≤ 12 && 1 ≤ d.day && d.day ≤ Date.daysInMonth d.year d.month

/-- Key used to compare dates chronologically. -/
def Date.toKey (d : Date) : Nat :=
  d.year * 10000 + d.month * 100 + d.day

/-- Raw front-matter value as parsed from a content file's YAML header:
a string, a boolean, a date literal, or a list. -/
inductive Value where
  | vstr (s : String)
  | vbool (b : Bool)
  | vdate (d : Date)
  | vlist (xs : List Value)

/-- Modelled from the spec: a content file of the source directory — a
front-matter block (key/value pairs: title, description, pubDate, tags,
draft, each possibly absent or of the wrong shape) followed by a markdown
body, together with the source file path the slug is derived from. -/
structure RawFile where
  path : String
  title : Option Value
  description : Option Value
  pubDate : Option Value
  tags : Option Value
  draft : Option Value
  body : String

/-- The Post entity of the data model. -/
structure Post where
  slug : String
  title : String
  description : String
  pubDate : Date
  tags : List String
  draft : Bool
  body : String
deriving DecidableEq, Repr

/-- Modelled from the spec: the build-time validation error carrying a
message identifying the offending file and field. -/
structure SchemaValidationError where
  file : String
  field : String
deriving DecidableEq, Repr

/-- Build target of the CLI surface: `build` (production), `dev`, `preview`. -/
inductive Mode where
  | production
  | development
  | preview
deriving DecidableEq, Repr

/-- Extract the strings of a front-matter list value; `none` if some
element is not a string. -/
def asStrings : List Value → Option (List String)
  | [] => some []
  | Value.vstr s :: vs => (asStrings vs).map (s :: ·)
  | _ => none

/-- Require a non-empty string field. -/
def reqNonEmptyStr (file field : String) : Option Value → Except SchemaValidationError String
  | some (Value.vstr s) => if s = "" then .error ⟨file, field⟩ else .ok s
  | _ => .error ⟨file, field⟩

/-- Require a string field. -/
def reqStr (file field : String) : Option Value → Except SchemaValidationError String
  | some (Value.vstr s) => .ok s
  | _ => .error ⟨file, field⟩

/-- Require a valid calendar-date field. -/
def reqDate (file field : String) : Option Value → Except SchemaValidationError Date
  | some (Value.vdate d) => if d.isValid then .ok d else .error ⟨file, field⟩
  | _ => .error ⟨file, field⟩

/-- Require a list-of-strings field. -/
def reqTags (file field : String) : Option Value → Except SchemaValidationError (List String)
  | some (Value.vlist vs) =>
    match asStrings vs with
    | some ts => .ok ts
    | none => .error ⟨file, field⟩
  | _ => .error ⟨file, field⟩

/-- Optional boolean field, defaulting to `false` when absent. -/
def optBool (file field : String) : Option Value → Except SchemaValidationError Bool
  | none => .ok false
  | some (Value.vbool b) => .ok b
  | _ => .error ⟨file, field⟩

/-- Modelled from the spec: schema validation of one content file — parses
the file into a Post record, failing with a `SchemaValidationError` naming
the offending file and field if a required field is missing or malformed;
the slug is derived from the source file path, and an absent draft flag
defaults to false. -/
def parsePost (f : RawFile) : Except SchemaValidationError Post := do
  let t ← reqNonEmptyStr f.path "title" f.title
  let desc ← reqStr f.path "description" f.description
  let d ← reqDate f.path "pubDate" f.pubDate
  let ts ← reqTags f.path "tags" f.tags
  let b ← optBool f.path "draft" f.draft
  pure ⟨f.path, t, desc, d, ts, b, f.body⟩

/-- Modelled from the spec: `loadAll()` — parses every file of the content
source into a Post record; any validation failure is build-time fatal and
no collection is produced. -/
def loadAll : List RawFile → Except SchemaValidationError (List Post)
  | [] => .ok []
  | f :: fs =>
    match parsePost f with
    | .error e => .error e
    | .ok p =>
      match loadAll fs with
      | .error e => .error e
      | .ok ps => .ok (p :: ps)

/-- Stable insertion of a post into a list sorted by `pubDate` descending:
the post goes in front of the first entry not newer than it, so an entry
with an equal date that was inserted earlier stays in front. -/
def insertByDate (p : Post) : List Post → List Post
  | [] => [p]
  | q :: qs =>
    if q.pubDate.toKey ≤ p.pubDate.toKey then p :: q :: qs
    else q :: insertByDate p qs

/-- Stable sort by `pubDate` descending, ties kept in insertion order. -/
def sortByDateDesc : List Post → List Post
  | [] => []
  | p :: ps => insertByDate p (sortByDateDesc ps)

/-- Modelled from the spec: `listPublished()` — filters out entries where
`draft == true` (only in production mode; all entries are visible in
development/preview mode), then sorts the remaining entries by `pubDate`
descending with ties broken by insertion order. -/
def listPublished (mode : Mode) (posts : List Post) : List Post :=
  sortByDateDesc (if mode = Mode.production then posts.filter (fun p => !p.draft) else posts)

/-- Site configuration read once at build start (from `astro.config.mjs`). -/
structure SiteConfig where
  site : String
deriving DecidableEq, Repr

/-- The configuration of this repository's `astro.config.mjs`. -/
def siteConfig : SiteConfig :=
  ⟨"https://ianmclaughlin.github.io"⟩

/-- Public URL of a published post. -/
def postUrl (cfg : SiteConfig) (p : Post) : String :=
  cfg.site ++ "/blog/" ++ p.slug ++ "/"

/-- Modelled from the spec: the sitemap generator — consumes the published
sequence (production listing) and emits the public URLs only. -/
def sitemap (cfg : SiteConfig) (posts : List Post) : List String :=
  (listPublished Mode.production posts).map (postUrl cfg)

/-- Build-time state: the immutable set of source content files. -/
structure BuildState where
  files : List RawFile

/-- Modelled from the spec: one build invocation as an explicit state
transformer — it reads the source files, constructs the in-memory
collection and the published listing, and returns the (unchanged) source
state alongside the result. -/
def runPipeline (mode : Mode) (st : BuildState) :
    BuildState × Except SchemaValidationError (List Post) :=
  match loadAll st.files with
  | .error e => (st, .error e)
  | .ok ps => (st, .ok (listPublished mode ps))

/-- Declarative well-formedness of a content file's front matter, stated
field by field as the spec describes it: title present and non-empty,
description present, pubDate present and a valid date, tags present as a
list of strings, draft absent or boolean. -/
def ValidFileP (f : RawFile) : Prop :=
  (∃ t, f.title = some (Value.vstr t) ∧ t ≠ "") ∧
  (∃ s, f.description = some (Value.vstr s)) ∧
  (∃ d, f.pubDate = some (Value.vdate d) ∧ d.isValid = true) ∧
  (∃ ts : List String, f.tags = some (Value.vlist (ts.map Value.vstr))) ∧
  (f.draft = none ∨ ∃ b, f.draft = some (Value.vbool b))

/-! ### Sorting lemmas -/

/-- Non-increasing `pubDate` between adjacent posts of a listing. -/
def dateGe (a b : Post) : Prop :=
  b.pubDate.toKey ≤ a.pubDate.toKey

theorem insertByDate_perm (p : Post) (l : List Post) :
    List.Perm (insertByDate p l) (p :: l) := by
  induction l with
  | nil => simp [insertByDate]
  | cons q qs ih =>
    simp only [insertByDate]
    split
    · exact List.Perm.refl _
    · exact (ih.cons q).trans (List.Perm.swap p q qs)

theorem sortByDateDesc_perm (l : List Post) :
    List.Perm (sortByDateDesc l) l := by
  induction l with
  | nil => simp [sortByDateDesc]
  | cons p ps ih => exact (insertByDate_perm p _).trans (ih.cons p)

theorem chain'_insertByDate (p : Post) :
    ∀ {l : List Post}, List.Chain' dateGe l → List.Chain' dateGe (insertByDate p l)
  | [], _ => by simp [insertByDate]
  | q :: qs, h => by
    simp only [insertByDate]
    split
    · rename_i hle
      exact List.Chain'.cons hle h
    · rename_i hgt
      have hq := chain'_insertByDate p h.tail
      rw [List.chain'_cons']
      refine ⟨?_, hq⟩
      intro y hy
      cases qs with
      | nil =>
        simp [insertByDate] at hy
        subst hy
        exact le_of_lt (not_le.mp hgt)
      | cons r rs =>
        simp only [insertByDate] at hy
        split at hy
        · simp at hy
          subst hy
          exact le_of_lt (not_le.mp hgt)
        · simp at hy
          subst hy
          exact (List.chain'_cons.mp h).1

theorem sortByDateDesc_chain :
    ∀ l : List Post, List.Chain' dateGe (sortByDateDesc l)
  | [] => List.chain'_nil
  | p :: ps => chain'_insertByDate p (sortByDateDesc_chain ps)

theorem filter_insertByDate (p : Post) (l : List Post) (d : Date) :
    (insertByDate p l).filter (fun q => q.pubDate == d) =
      if p.pubDate == d then p :: l.filter (fun q => q.pubDate == d)
      else l.filter (fun q => q.pubDate == d) := by
  induction l with
  | nil =>
    by_cases hp : (p.pubDate == d) = true <;>
      simp [insertByDate, List.filter_cons, hp]
  | cons q qs ih =>
    simp only [insertByDate]
    split
    · rename_i hle
      by_cases hp : (p.pubDate == d) = true <;> simp [List.filter_cons, hp]
    · rename_i hgt
      by_cases hp : (p.pubDate == d) = true
      · have hpd : p.pubDate = d := by simpa using hp
        have hq : ¬ ((q.pubDate == d) = true) := by
          intro hqd
          have hqe : q.pubDate = d := by simpa using hqd
          exact hgt (le_of_eq (by rw [hqe, hpd]))
        simp [List.filter_cons, hq, hp, ih]
      · by_cases hq : (q.pubDate == d) = true <;>
          simp [List.filter_cons, hq, hp, ih]

theorem filter_sortByDateDesc (l : List Post) (d : Date) :
    (sortByDateDesc l).filter (fun q => q.pubDate == d) =
      l.filter (fun q => q.pubDate == d) := by
  induction l with
  | nil => rfl
  | cons p ps ih =>
    by_cases hp : (p.pubDate == d) = true <;>
      simp [sortByDateDesc, filter_insertByDate, ih, List.filter_cons, hp]

/-! ### Parser lemmas -/

theorem except_bind_ok {ε α β : Type} {e : Except ε α} {g : α → Except ε β} {b : β} :
    (e >>= g) = Except.ok b ↔ ∃ a, e = Except.ok a ∧ g a = Except.ok b := by
  cases e with
  | error e => simp [Bind.bind, Except.bind]
  | ok a => simp [Bind.bind, Except.bind]

theorem reqNonEmptyStr_ok {file field : String} {v : Option Value} {t : String} :
    reqNonEmptyStr file field v = Except.ok t ↔ v = some (Value.vstr t) ∧ t ≠ "" := by
  cases v with
  | none => simp [reqNonEmptyStr]
  | some w =>
    cases w with
    | vstr s =>
      by_cases hs : s = ""
      · subst hs
        constructor
        · intro h
          simp [reqNonEmptyStr] at h
        · rintro ⟨ht, hne⟩
          exact absurd (Value.vstr.inj (Option.some.inj ht)).symm hne
      · simp [reqNonEmptyStr, hs]
        rintro rfl
        exact hs
    | vbool b => simp [reqNonEmptyStr]
    | vdate d => simp [reqNonEmptyStr]
    | vlist xs => simp [reqNonEmptyStr]

theorem reqStr_ok {file field : String} {v : Option Value} {t : String} :
    reqStr file field v = Except.ok t ↔ v = some (Value.vstr t) := by
  cases v with
  | none => simp [reqStr]
  | some w => cases w <;> simp [reqStr]

theorem reqDate_ok {file field : String} {v : Option Value} {d : Date} :
    reqDate file field v = Except.ok d ↔ v = some (Value.vdate d) ∧ d.isValid = true := by
  cases v with
  | none => simp [reqDate]
  | some w =>
    cases w with
    | vdate d' =>
      by_cases hv : d'.isValid = true
      · simp [reqDate, hv]
        rintro rfl
        exact hv
      · simp [reqDate, hv]
        rintro rfl
        simpa using hv
    | vstr s => simp [reqDate]
    | vbool b => simp [reqDate]
    | vlist xs => simp [reqDate]

theorem asStrings_eq_some :
    ∀ {vs : List Value} {ts : List String},
      asStrings vs = some ts ↔ vs = ts.map Value.vstr := by
  intro vs
  induction vs with
  | nil => intro ts; cases ts <;> simp [asStrings]
  | cons v vs ih =>
    intro ts
    cases v with
    | vstr s =>
      cases ts with
      | nil => simp [asStrings, Option.map_eq_some']
      | cons t ts' =>
        cases hvs : asStrings vs with
        | none => simp [asStrings, hvs, ← ih]
        | some us =>
          simp [asStrings, hvs, Option.map_some', Option.some.injEq,
            List.map_cons, List.cons.injEq, Value.vstr.injEq, ← ih]
    | vbool b => cases ts <;> simp [asStrings]
    | vdate d => cases ts <;> simp [asStrings]
    | vlist xs => cases ts <;> simp [asStrings]

theorem reqTags_ok {file field : String} {v : Option Value} {ts : List String} :
    reqTags file field v = Except.ok ts ↔ v = some (Value.vlist (ts.map Value.vstr)) := by
  cases v with
  | none => simp [reqTags]
  | some w =>
    cases w with
    | vlist vs =>
      cases hvs : asStrings vs with
      | none =>
        simp [reqTags, hvs]
        intro h
        have ha := asStrings_eq_some.mpr h
        rw [hvs] at ha
        exact Option.noConfusion ha
      | some ts' =>
        have hv := asStrings_eq_some.mp hvs
        subst hv
        simp [reqTags, hvs]
        constructor
        · rintro rfl; rfl
        · intro h
          exact List.map_injective_iff.mpr (fun a b hab => Value.vstr.inj hab) h
    | vstr s => simp [reqTags]
    | vbool b => simp [reqTags]
    | vdate d => simp [reqTags]

theorem optBool_ok {file field : String} {v : Option Value} {b : Bool} :
    optBool file field v = Except.ok b ↔
      (v = none ∧ b = false) ∨ v = some (Value.vbool b) := by
  cases v with
  | none => simp [optBool, eq_comm]
  | some w => cases w <;> simp [optBool]

/-- Full characterization of a successful parse of one content file. -/
theorem parsePost_ok {f : RawFile} {p : Post} :
    parsePost f = Except.ok p ↔
      f.title = some (Value.vstr p.title) ∧ p.title ≠ "" ∧
      f.description = some (Value.vstr p.description) ∧
      f.pubDate = some (Value.vdate p.pubDate) ∧ p.pubDate.isValid = true ∧
      f.tags = some (Value.vlist (p.tags.map Value.vstr)) ∧
      ((f.draft = none ∧ p.draft = false) ∨ f.draft = some (Value.vbool p.draft)) ∧
      p.slug = f.path ∧ p.body = f.body := by
  constructor
  · intro h
    simp only [parsePost, except_bind_ok] at h
    obtain ⟨t, ht, desc, hdesc, d, hd, ts, hts, b, hb, hp⟩ := h
    simp only [pure, Except.pure, Except.ok.injEq] at hp
    subst hp
    obtain ⟨ht1, ht2⟩ := reqNonEmptyStr_ok.mp ht
    obtain ⟨hd1, hd2⟩ := reqDate_ok.mp hd
    exact ⟨ht1, ht2, reqStr_ok.mp hdesc, hd1, hd2, reqTags_ok.mp hts,
      optBool_ok.mp hb, rfl, rfl⟩
  · rintro ⟨ht, hne, hdesc, hd, hdv, hts, hdraft, hslug, hbody⟩
    simp only [parsePost, except_bind_ok]
    refine ⟨p.title, reqNonEmptyStr_ok.mpr ⟨ht, hne⟩, p.description, reqStr_ok.mpr hdesc,
      p.pubDate, reqDate_ok.mpr ⟨hd, hdv⟩, p.tags, reqTags_ok.mpr hts, p.draft,
      optBool_ok.mpr hdraft, ?_⟩
    simp only [pure, Except.pure, Except.ok.injEq]
    cases p
    simp_all

/-- A file passes the declarative schema exactly when its parse succeeds. -/
theorem valid_iff_parse {f : RawFile} :
    ValidFileP f ↔ ∃ p, parsePost f = Except.ok p := by
  constructor
  · rintro ⟨⟨t, ht, hne⟩, ⟨s, hs⟩, ⟨d, hd, hdv⟩, ⟨ts, hts⟩, hdraft⟩
    rcases hdraft with hnone | ⟨b, hb⟩
    · exact ⟨⟨f.path, t, s, d, ts, false, f.body⟩,
        parsePost_ok.mpr ⟨ht, hne, hs, hd, hdv, hts, Or.inl ⟨hnone, rfl⟩, rfl, rfl⟩⟩
    · exact ⟨⟨f.path, t, s, d, ts, b, f.body⟩,
        parsePost_ok.mpr ⟨ht, hne, hs, hd, hdv, hts, Or.inr hb, rfl, rfl⟩⟩
  · rintro ⟨p, hp⟩
    obtain ⟨ht, hne, hdesc, hd, hdv, hts, hdraft, _, _⟩ := parsePost_ok.mp hp
    refine ⟨⟨p.title, ht, hne⟩, ⟨p.description, hdesc⟩, ⟨p.pubDate, hd, hdv⟩,
      ⟨p.tags, hts⟩, ?_⟩
    rcases hdraft with ⟨h1, _⟩ | h1
    · exact Or.inl h1
    · exact Or.inr ⟨p.draft, h1⟩

/-- `loadAll` succeeds exactly when every file parses. -/
theorem loadAll_isOk_iff {files : List RawFile} :
    (∃ ps, loadAll files = Except.ok ps) ↔ ∀ f ∈ files, ∃ p, parsePost f = Except.ok p := by
  induction files with
  | nil => simp [loadAll]
  | cons f fs ih =>
    constructor
    · rintro ⟨ps, hps⟩
      revert hps
      simp only [loadAll]
      cases hpf : parsePost f with
      | error e => intro hps; cases hps
      | ok p =>
        cases hl : loadAll fs with
        | error e => intro hps; cases hps
        | ok ps' =>
          intro _
          intro g hg
          rcases List.mem_cons.mp hg with rfl | hg'
          · exact ⟨p, hpf⟩
          · exact (ih.mp ⟨ps', hl⟩) g hg'
    · intro hall
      obtain ⟨p, hpf⟩ := hall f (List.mem_cons_self f fs)
      obtain ⟨ps', hl⟩ := ih.mpr (fun g hg => hall g (List.mem_cons_of_mem f hg))
      exact ⟨p :: ps', by simp [loadAll, hpf, hl]⟩

/-- `loadAll` is total: it returns a collection or an error. -/
theorem loadAll_total (files : List RawFile) :
    (∃ ps, loadAll files = Except.ok ps) ∨ (∃ e, loadAll files = Except.error e) := by
  cases h : loadAll files with
  | error e => exact Or.inr ⟨e, rfl⟩
  | ok ps => exact Or.inl ⟨ps, rfl⟩

/-- `loadAll` errors exactly when some file fails to parse. -/
theorem loadAll_error_iff {files : List RawFile} :
    (∃ e, loadAll files = Except.error e) ↔ ∃ f ∈ files, ¬ ∃ p, parsePost f = Except.ok p := by
  constructor
  · rintro ⟨e, he⟩
    by_contra hno
    push_neg at hno
    obtain ⟨ps, hps⟩ := loadAll_isOk_iff.mpr (fun f hf => hno f hf)
    rw [he] at hps
    cases hps
  · rintro ⟨f, hf, hbad⟩
    rcases loadAll_total files with ⟨ps, hps⟩ | he
    · exact absurd (loadAll_isOk_iff.mp ⟨ps, hps⟩ f hf) hbad
    · exact he

/-- Every post of a loaded collection is the parse of some source file. -/
theorem loadAll_mem {files : List RawFile} {ps : List Post}
    (h : loadAll files = Except.ok ps) :
    ∀ p ∈ ps, ∃ f ∈ files, parsePost f = Except.ok p := by
  induction files generalizing ps with
  | nil =>
    simp only [loadAll, Except.ok.injEq] at h
    subst h
    simp
  | cons f fs ih =>
    revert h
    simp only [loadAll]
    cases hpf : parsePost f with
    | error e => intro h; cases h
    | ok p =>
      cases hl : loadAll fs with
      | error e => intro h; cases h
      | ok ps' =>
        intro h
        cases h
        intro q hq
        rcases List.mem_cons.mp hq with rfl | hq'
        · exact ⟨f, List.mem_cons_self f fs, hpf⟩
        · obtain ⟨g, hg, hgq⟩ := ih hl q hq'
          exact ⟨g, List.mem_cons_of_mem f hg, hgq⟩

/-- The slugs of a loaded collection are exactly the source file paths,
in order. -/
theorem loadAll_slugs {files : List RawFile} {ps : List Post}
    (h : loadAll files = Except.ok ps) :
    ps.map Post.slug = files.map RawFile.path := by
  induction files generalizing ps with
  | nil =>
    simp only [loadAll, Except.ok.injEq] at h
    subst h
    simp
  | cons f fs ih =>
    revert h
    simp only [loadAll]
    cases hpf : parsePost f with
    | error e => intro h; cases h
    | ok p =>
      cases hl : loadAll fs with
      | error e => intro h; cases h
      | ok ps' =>
        intro h
        cases h
        have hslug : p.slug = f.path := (parsePost_ok.mp hpf).2.2.2.2.2.2.2.1
        simp [hslug, ih hl]

/-! ### Listing lemmas -/

theorem mem_listPublished_production {ps : List Post} {p : Post} :
    p ∈ listPublished Mode.production ps ↔ p ∈ ps ∧ p.draft = false := by
  unfold listPublished
  rw [if_pos rfl, (sortByDateDesc_perm _).mem_iff, List.mem_filter]
  simp [Bool.not_eq_true']

theorem mem_listPublished_of_ne {mode : Mode} (h : mode ≠ Mode.production)
    {ps : List Post} {p : Post} :
    p ∈ listPublished mode ps ↔ p ∈ ps := by
  unfold listPublished
  rw [if_neg h, (sortByDateDesc_perm _).mem_iff]

theorem mem_of_listPublished {mode : Mode} {ps : List Post} {p : Post}
    (h : p ∈ listPublished mode ps) : p ∈ ps := by
  cases hm : mode with
  | production =>
    subst hm
    exact (mem_listPublished_production.mp h).1
  | development =>
    subst hm
    exact (mem_listPublished_of_ne (by simp) ).mp h
  | preview =>
    subst hm
    exact (mem_listPublished_of_ne (by simp) ).mp h

theorem length_listPublished (mode : Mode) (ps : List Post) :
    (listPublished mode ps).length ≤ ps.length := by
  unfold listPublished
  split
  · rw [(sortByDateDesc_perm _).length_eq]
    exact List.length_filter_le _ _
  · rw [(sortByDateDesc_perm _).length_eq]

/-- One full traversal of the published sequence, element by element. -/
def traverseSeq (l : List Post) : List Post :=
  l.foldr (fun p acc => p :: acc) []

theorem traverseSeq_eq (l : List Post) : traverseSeq l = l := by
  induction l with
  | nil => rfl
  | cons p ps ih => simp [traverseSeq]

/-! ### Concrete content of the repository

The single blog post of the repository (`src/unnamed/part_000`; its
original file name under `src/content/blog/` is not recorded, so a
placeholder path stands for it; the markdown body is abridged to its first
heading — the pipeline never inspects the body). -/

/-- The front matter of the repository's one content file. -/
def part000 : RawFile :=
  { path := "blog/part_000"
    title := some (Value.vstr "AI agents are unlocking a new class of software tools that require a custom integration per project or framework")
    description := some (Value.vstr "Using static analysis to find production bugs open source projects like httpbin, Redash, Airflow, and Label Studio")
    pubDate := some (Value.vdate ⟨2026, 2, 2⟩)
    tags := some (Value.vlist [Value.vstr "python", Value.vstr "static-analysis", Value.vstr "tooling"])
    draft := some (Value.vbool false)
    body := "## The problem with Python backend APIs" }

/-- The Post that `loadAll` produces from `part000`. -/
def part000Post : Post :=
  { slug := "blog/part_000"
    title := "AI agents are unlocking a new class of software tools that require a custom integration per project or framework"
    description := "Using static analysis to find production bugs open source projects like httpbin, Redash, Airflow, and Label Studio"
    pubDate := ⟨2026, 2, 2⟩
    tags := ["python", "static-analysis", "tooling"]
    draft := false
    body := "## The problem with Python backend APIs" }

/-- The front-matter template of the README's "Adding a blog post" section. -/
def templateFile : RawFile :=
  { path := "blog/template"
    title := some (Value.vstr "Post Title")
    description := some (Value.vstr "One sentence description.")
    pubDate := some (Value.vdate ⟨2026, 1, 5⟩)
    tags := some (Value.vlist [Value.vstr "tag1", Value.vstr "tag2"])
    draft := some (Value.vbool false)
    body := "Your content here." }

/-- The Post that `loadAll` produces from `templateFile`. -/
def templatePost : Post :=
  { slug := "blog/template"
    title := "Post Title"
    description := "One sentence description."
    pubDate := ⟨2026, 1, 5⟩
    tags := ["tag1", "tag2"]
    draft := false
    body := "Your content here." }

/-- Scenario input: a content file whose front matter omits `pubDate`. -/
def fileMissingDate : RawFile :=
  { path := "blog/missing-pubdate"
    title := some (Value.vstr "No Date")
    description := some (Value.vstr "Missing pubDate.")
    pubDate := none
    tags := some (Value.vlist [])
    draft := some (Value.vbool false)
    body := "" }

/-- Scenario input: a content file whose front matter omits the draft key. -/
def fileNoDraft : RawFile :=
  { path := "blog/no-draft"
    title := some (Value.vstr "No Draft Key")
    description := some (Value.vstr "Omits draft.")
    pubDate := some (Value.vdate ⟨2026, 3, 1⟩)
    tags := some (Value.vlist [Value.vstr "tag1"])
    draft := none
    body := "" }

/-- The Post that `loadAll` produces from `fileNoDraft`. -/
def postNoDraft : Post :=
  { slug := "blog/no-draft"
    title := "No Draft Key"
    description := "Omits draft."
    pubDate := ⟨2026, 3, 1⟩
    tags := ["tag1"]
    draft := false
    body := "" }

/-- Scenario input: a valid content file used twice to force a slug clash. -/
def dupFile : RawFile :=
  { path := "blog/dup"
    title := some (Value.vstr "Dup")
    description := some (Value.vstr "Duplicate slug.")
    pubDate := some (Value.vdate ⟨2026, 4, 1⟩)
    tags := some (Value.vlist [])
    draft := some (Value.vbool false)
    body := "" }

/-- The Post that `loadAll` produces from `dupFile`. -/
def dupPost : Post :=
  { slug := "blog/dup"
    title := "Dup"
    description := "Duplicate slug."
    pubDate := ⟨2026, 4, 1⟩
    tags := []
    draft := false
    body := "" }

/-- Scenario input of the spec: Post A, pubDate 2026-01-05, draft false. -/
def postA : Post :=
  { slug := "blog/post-a"
    title := "Post A"
    description := "A."
    pubDate := ⟨2026, 1, 5⟩
    tags := []
    draft := false
    body := "" }

/-- Scenario input of the spec: Post B, pubDate 2026-02-02, draft false. -/
def postB : Post :=
  { slug := "blog/post-b"
    title := "Post B"
    description := "B."
    pubDate := ⟨2026, 2, 2⟩
    tags := []
    draft := false
    body := "" }

/-! ### Claims -/

/-- C1: for a content set whose files all validate, the production
`listPublished()` contains no draft, the development and preview listings
contain every loaded Post, and every sitemap URL is the URL of a non-draft
Post of the collection. -/
theorem claim_c1_published_drafts (files : List RawFile) (ps : List Post)
    (h : loadAll files = Except.ok ps) :
    (∀ p ∈ listPublished Mode.production ps, p.draft = false) ∧
    (∀ p ∈ ps, p ∈ listPublished Mode.development ps) ∧
    (∀ p ∈ ps, p ∈ listPublished Mode.preview ps) ∧
    (∀ u ∈ sitemap siteConfig ps, ∃ p, p ∈ ps ∧ p.draft = false ∧ u = postUrl siteConfig p) := by
  refine ⟨?_, ?_, ?_, ?_⟩
  · intro p hp
    exact (mem_listPublished_production.mp hp).2
  · intro p hp
    exact (mem_listPublished_of_ne (by simp)).mpr hp
  · intro p hp
    exact (mem_listPublished_of_ne (by simp)).mpr hp
  · intro u hu
    obtain ⟨p, hp, rfl⟩ := List.mem_map.mp hu
    obtain ⟨hps, hdf⟩ := mem_listPublished_production.mp hp
    exact ⟨p, hps, hdf, rfl⟩

/-- Witness for C1 on the repository's actual content set. -/
theorem claim_c1_witness :
    loadAll [part000] = Except.ok [part000Post] ∧ part000Post.draft = false :=
  ⟨rfl, (claim_c1_published_drafts [part000] [part000Post] rfl).1 part000Post
    (List.mem_cons_self _ _)⟩

/-- C2: every listing is sorted by `pubDate` non-increasing on adjacent
pairs, posts of equal `pubDate` keep their insertion order (the filtered
sublist of any fixed date is unchanged), and on the spec's scenario of
Post A (2026-01-05) and Post B (2026-02-02) the published listing is
[B, A]. -/
theorem claim_c2_sorted (mode : Mode) (ps : List Post) (d : Date) :
    List.Chain' dateGe (listPublished mode ps) ∧
    ((listPublished mode ps).filter (fun q => q.pubDate == d) =
      (if mode = Mode.production then ps.filter (fun p => !p.draft) else ps).filter
        (fun q => q.pubDate == d)) ∧
    listPublished Mode.production [postA, postB] = [postB, postA] :=
  ⟨sortByDateDesc_chain _, filter_sortByDateDesc _ d, rfl⟩

/-- C3: `loadAll()` fails with a `SchemaValidationError` exactly when some
file's front matter has a required field missing or malformed, succeeds on
a content set with no such file, and produces no collection on failure. -/
theorem claim_c3_schema_error (files : List RawFile) :
    ((∃ e, loadAll files = Except.error e) ↔ ∃ f ∈ files, ¬ ValidFileP f) ∧
    ((∀ f ∈ files, ValidFileP f) → ∃ ps, loadAll files = Except.ok ps) ∧
    (∀ e ps, loadAll files = Except.error e → loadAll files ≠ Except.ok ps) := by
  refine ⟨?_, ?_, ?_⟩
  · rw [loadAll_error_iff]
    constructor
    · rintro ⟨f, hf, hbad⟩
      exact ⟨f, hf, fun hv => hbad (valid_iff_parse.mp hv)⟩
    · rintro ⟨f, hf, hnv⟩
      exact ⟨f, hf, fun hex => hnv (valid_iff_parse.mpr hex)⟩
  · intro hall
    exact loadAll_isOk_iff.mpr (fun f hf => valid_iff_parse.mp (hall f hf))
  · intro e ps he hok
    rw [he] at hok
    cases hok

/-- Witness for C3: a file missing `pubDate` makes `loadAll` fail, and the
repository's valid content set loads. -/
theorem claim_c3_witness :
    (∃ e, loadAll [fileMissingDate] = Except.error e) ∧
    (∃ ps, loadAll [part000] = Except.ok ps) := by
  constructor
  · apply (claim_c3_schema_error [fileMissingDate]).1.mpr
    refine ⟨fileMissingDate, List.mem_cons_self _ _, ?_⟩
    rintro ⟨_, _, ⟨d, hd, _⟩, _, _⟩
    exact Option.noConfusion hd
  · apply (claim_c3_schema_error [part000]).2.1
    intro f hf
    rcases List.mem_cons.mp hf with rfl | hcon
    · exact valid_iff_parse.mpr ⟨part000Post, rfl⟩
    · exact absurd hcon (List.not_mem_nil f)

/-- C4: a Post accepted by the loader carries exactly the title,
description, pubDate, tags and draft flag declared in its file's front
matter (draft defaulting to false when the key is absent). -/
theorem claim_c4_roundtrip (f : RawFile) (p : Post) (h : parsePost f = Except.ok p) :
    f.title = some (Value.vstr p.title) ∧
    f.description = some (Value.vstr p.description) ∧
    f.pubDate = some (Value.vdate p.pubDate) ∧
    f.tags = some (Value.vlist (p.tags.map Value.vstr)) ∧
    (f.draft = some (Value.vbool p.draft) ∨ (f.draft = none ∧ p.draft = false)) := by
  obtain ⟨ht, _, hdesc, hd, _, hts, hdraft, _, _⟩ := parsePost_ok.mp h
  refine ⟨ht, hdesc, hd, hts, ?_⟩
  rcases hdraft with h1 | h1
  · exact Or.inr h1
  · exact Or.inl h1

/-- Witness for C4 on the README's front-matter template. -/
theorem claim_c4_witness :
    templateFile.title = some (Value.vstr templatePost.title) ∧
    templateFile.description = some (Value.vstr templatePost.description) ∧
    templateFile.pubDate = some (Value.vdate templatePost.pubDate) ∧
    templateFile.tags = some (Value.vlist (templatePost.tags.map Value.vstr)) ∧
    (templateFile.draft = some (Value.vbool templatePost.draft) ∨
      (templateFile.draft = none ∧ templatePost.draft = false)) :=
  claim_c4_roundtrip templateFile templatePost rfl

/-- C5: two runs of `loadAll()` over the same content source yield equal
collections. -/
theorem claim_c5_idempotent (files : List RawFile) (ps₁ ps₂ : List Post)
    (h1 : loadAll files = Except.ok ps₁) (h2 : loadAll files = Except.ok ps₂) :
    ps₁ = ps₂ := by
  rw [h1] at h2
  exact Except.ok.inj h2

/-- Witness for C5 on the repository's content set. -/
theorem claim_c5_witness : ([part000Post] : List Post) = [part000Post] :=
  claim_c5_idempotent [part000] [part000Post] [part000Post] rfl rfl

/-- C6: a file whose front matter omits the draft key loads to a Post with
draft false, which therefore appears in every production listing it is
loaded into. -/
theorem claim_c6_draft_default (f : RawFile) (p : Post)
    (hd : f.draft = none) (h : parsePost f = Except.ok p) :
    p.draft = false ∧ ∀ ps : List Post, p ∈ ps → p ∈ listPublished Mode.production ps := by
  obtain ⟨_, _, _, _, _, _, hdraft, _, _⟩ := parsePost_ok.mp h
  have hdf : p.draft = false := by
    rcases hdraft with ⟨_, h2⟩ | h1
    · exact h2
    · rw [hd] at h1
      cases h1
  exact ⟨hdf, fun ps hps => mem_listPublished_production.mpr ⟨hps, hdf⟩⟩

/-- Witness for C6 on a concrete file omitting the draft key. -/
theorem claim_c6_witness :
    postNoDraft.draft = false ∧
    postNoDraft ∈ listPublished Mode.production [postNoDraft] := by
  have h := claim_c6_draft_default fileNoDraft postNoDraft rfl rfl
  exact ⟨h.1, h.2 [postNoDraft] (List.mem_cons_self _ _)⟩

/-- C7 counterexample: two files with the same source path load without
any error into a collection whose slugs are not pairwise distinct — no
duplicate-slug detection is performed at build time. -/
theorem claim_c7_cex :
    loadAll [dupFile, dupFile] = Except.ok [dupPost, dupPost] ∧
    ¬ (([dupPost, dupPost] : List Post).map Post.slug).Nodup :=
  ⟨rfl, by decide⟩

/-- C7 (amended): when the source file paths are pairwise distinct, the
slugs of a successfully loaded collection are pairwise distinct; the
pipeline performs no duplicate-slug detection. -/
theorem claim_c7_slugs_nodup (files : List RawFile) (ps : List Post)
    (h : loadAll files = Except.ok ps)
    (hp : (files.map RawFile.path).Nodup) :
    (ps.map Post.slug).Nodup := by
  rw [loadAll_slugs h]
  exact hp

/-- Witness for C7 (amended) on the repository's content set. -/
theorem claim_c7_witness : (([part000Post] : List Post).map Post.slug).Nodup :=
  claim_c7_slugs_nodup [part000] [part000Post] rfl (by simp)

/-- C8: the pipeline leaves the source state unchanged, and every Post of
the published output is exactly the unmodified parse of one of the source
files — the embedding has no other effect channel (no network, no
mutation). -/
theorem claim_c8_frame (mode : Mode) (st : BuildState) :
    (runPipeline mode st).1 = st ∧
    (∀ out, (runPipeline mode st).2 = Except.ok out →
      ∀ p ∈ out, ∃ f ∈ st.files, parsePost f = Except.ok p) := by
  cases h : loadAll st.files with
  | error e =>
    constructor
    · simp [runPipeline, h]
    · intro out hout
      simp [runPipeline, h] at hout
  | ok ps =>
    constructor
    · simp [runPipeline, h]
    · intro out hout p hp
      simp [runPipeline, h] at hout
      subst hout
      exact loadAll_mem h p (mem_of_listPublished hp)

/-- Witness for C8 on the repository's content set. -/
theorem claim_c8_witness :
    (runPipeline Mode.production ⟨[part000]⟩).1 = (⟨[part000]⟩ : BuildState) ∧
    (∃ f ∈ [part000], parsePost f = Except.ok part000Post) :=
  ⟨(claim_c8_frame Mode.production ⟨[part000]⟩).1,
    (claim_c8_frame Mode.production ⟨[part000]⟩).2
      (listPublished Mode.production [part000Post]) rfl part000Post
      (List.mem_cons_self _ _)⟩

/-- C9: the published sequence is finite — no longer than the loaded
collection — and a full traversal terminates yielding exactly the sequence
itself, so re-iterating it yields the same elements in the same order. -/
theorem claim_c9_finite_restartable (mode : Mode) (ps : List Post) :
    (listPublished mode ps).length ≤ ps.length ∧
    traverseSeq (listPublished mode ps) = listPublished mode ps :=
  ⟨length_listPublished mode ps, traverseSeq_eq _⟩

/-- C10: on the repository's actual content set (the single blog post,
pubDate 2026-02-02, draft false), `loadAll()` succeeds — the validation
error branch is not taken — and the production listing is exactly that one
Post, equal to the development listing; its title is non-empty and its
date valid. -/
theorem claim_c10_actual_content :
    loadAll [part000] = Except.ok [part000Post] ∧
    part000Post.draft = false ∧
    listPublished Mode.production [part000Post] = [part000Post] ∧
    listPublished Mode.development [part000Post] = listPublished Mode.production [part000Post] ∧
    part000Post.title ≠ "" ∧
    part000Post.pubDate.isValid = true :=
  ⟨rfl, rfl, rfl, rfl, by decide, rfl⟩

end PersonalSite
